import Mathlib

/-!
Verification of the adaptive video-to-terminal rendering pipeline
(terminal-webcam repository) against its specification.

The development shallowly embeds the TypeScript sources:

* `TZ` — the "true zoom" viewer (WebcamViewer with debounced restarts,
  `processVideoData`, `sampleVideoPixel`, `getCharForBrightness`,
  `adjustZoom`, `pan`, `cleanup`) together with its bundled
  `SimpleCliRenderer` diff renderer (namespace `OC`).
* `DR` — `pong-game/webcam-dynamic-res.ts` (six display modes,
  `getCharForBrightness`, `pan`, the ffmpeg exit handler).
* `QD` — the quadrant renderer (`getPixel`, `renderQuadrant`).
* `SA` — the standalone viewer (ffmpeg `error`/`exit` handlers).

JavaScript numbers are embedded as rationals (`ℚ`), byte buffers as
`List ℕ`, `Math.floor` as `Int.floor`, and `Math.round` (on the
non-negative values that arise here) as `⌊x + 1/2⌋`.
-/

namespace TZ

/-- Frame size in bytes: `captureWidth * captureHeight * 3` (rgb24). -/
def frameSizeOf (captureWidth captureHeight : ℕ) : ℕ :=
  captureWidth * captureHeight * 3

/-- One pass of the `while` loop of `processVideoData`: the partial frame
accumulated so far is `buf` (the first `bufferPos` bytes of `videoBuffer`),
the incoming chunk is `chunk`.  Each iteration copies
`toRead = min (expectedSize - bufferPos) (chunk.length - offset)` bytes;
when the buffer fills, `renderFrame()` signals a complete frame and
`bufferPos` resets to 0.  Returns the final partial buffer and the list of
completed frames, in order. -/
def processVideoData (expectedSize : ℕ) (buf chunk : List ℕ) :
    List ℕ × List (List ℕ) :=
  if chunk = [] ∨ expectedSize ≤ buf.length then (buf, [])
  else
    let toRead := min (expectedSize - buf.length) chunk.length
    let buf2 := buf ++ chunk.take toRead
    if expectedSize ≤ buf2.length then
      let rest := processVideoData expectedSize [] (chunk.drop toRead)
      (rest.1, buf2 :: rest.2)
    else (buf2, [])
termination_by chunk.length
decreasing_by
  simp only [List.length_drop]
  have hc : chunk ≠ [] := by tauto
  have h1 : 1 ≤ min (expectedSize - buf.length) chunk.length := by
    have : 0 < chunk.length := List.length_pos.mpr hc
    omega
  omega

/-- Feeding a whole sequence of chunks to the frame assembler. -/
def feedChunks (expectedSize : ℕ) (buf : List ℕ) :
    List (List ℕ) → List ℕ × List (List ℕ)
  | [] => (buf, [])
  | c :: cs =>
    let r1 := processVideoData expectedSize buf c
    let r2 := feedChunks expectedSize r1.1 cs
    (r2.1, r1.2 ++ r2.2)

/-- State of the capture controller relevant to zoom debouncing.
`restartTimer` models whether a `setTimeout` scheduled by
`scheduleRestart` is pending (`clearTimeout` + `setTimeout` keeps exactly
one pending timer).  `restarts` records, in order, the zoom level active
for each ffmpeg (re)spawn performed by `startFFmpeg`. -/
structure Ctrl where
  zoomLevel : ℚ
  pendingZoomLevel : ℚ
  panX : ℚ
  panY : ℚ
  restartTimer : Bool
  restarts : List ℚ
deriving DecidableEq

/-- `adjustZoom(delta)`: clamps the pending zoom to `[1, 8]`; when it
changed, recenters and clamps the pan and calls `scheduleRestart`
(cancel pending timer, schedule a new one). -/
def adjustZoom (c : Ctrl) (delta : ℚ) : Ctrl :=
  let oldZoom := c.pendingZoomLevel
  let pending := max 1 (min 8 (c.pendingZoomLevel + delta))
  if pending ≠ oldZoom then
    let ratio := oldZoom / pending
    let panX' := max 0 (min 1 (1/2 + (c.panX - 1/2) * ratio))
    let panY' := max 0 (min 1 (1/2 + (c.panY - 1/2) * ratio))
    { c with pendingZoomLevel := pending, panX := panX', panY := panY',
             restartTimer := true }
  else c

/-- `startFFmpeg`: adopts the pending zoom as active, spawns ffmpeg at the
resolution derived from the (new) active zoom, and finally re-schedules a
restart if the pending zoom changed meanwhile. -/
def startFFmpeg (c : Ctrl) : Ctrl :=
  let c1 := if c.pendingZoomLevel ≠ c.zoomLevel then
      { c with zoomLevel := c.pendingZoomLevel }
    else c
  let c2 := { c1 with restarts := c1.restarts ++ [c1.zoomLevel] }
  if c2.pendingZoomLevel ≠ c2.zoomLevel then
    { c2 with restartTimer := true }
  else c2

/-- Expiry of the debounce timer scheduled by `scheduleRestart`: the
callback clears `restartTimer` and restarts ffmpeg only when the pending
zoom differs from the active one (`isRestarting` is false between
completed restarts in the single-threaded event loop). -/
def fireRestartTimer (c : Ctrl) : Ctrl :=
  if c.restartTimer then
    let c1 := { c with restartTimer := false }
    if c1.pendingZoomLevel ≠ c1.zoomLevel then startFFmpeg c1 else c1
  else c

/-- A burst of zoom-adjustment requests inside one debounce quiet period:
every request lands before the timer fires, and the single surviving
timer fires afterwards. -/
def burst (c : Ctrl) (deltas : List ℚ) : Ctrl :=
  fireRestartTimer (deltas.foldl adjustZoom c)

/-- The controller is idle: no pending timer, the active capture
resolution matches the pending zoom, and no restart recorded yet. -/
def Quiescent (c : Ctrl) : Prop :=
  c.restartTimer = false ∧ c.pendingZoomLevel = c.zoomLevel ∧ c.restarts = []

/-- The viewer state read by `sampleVideoPixel`. -/
structure View where
  termWidth : ℕ
  termHeight : ℕ
  captureWidth : ℕ
  captureHeight : ℕ
  zoomLevel : ℚ
  panX : ℚ
  panY : ℚ
  videoBuffer : List ℕ

/-- The unclamped source coordinates `videoX, videoY` computed by
`sampleVideoPixel`: the viewport is `capture size / zoomLevel`, its
top-left corner is placed by the pan fractions, and the terminal cell is
mapped linearly into it (`adjustedY`/`displayHeight` skip the status
rows). -/
def videoCoords (v : View) (termX termY : ℤ) : ℤ × ℤ :=
  let displayHeight : ℤ := (v.termHeight : ℤ) - 2
  let adjustedY : ℤ := termY - 1
  let viewWidth : ℚ := (v.captureWidth : ℚ) / v.zoomLevel
  let viewHeight : ℚ := (v.captureHeight : ℚ) / v.zoomLevel
  let startX : ℚ := ((v.captureWidth : ℚ) - viewWidth) * v.panX
  let startY : ℚ := ((v.captureHeight : ℚ) - viewHeight) * v.panY
  (⌊startX + ((termX : ℚ) / (v.termWidth : ℚ)) * viewWidth⌋,
   ⌊startY + ((adjustedY : ℚ) / (displayHeight : ℚ)) * viewHeight⌋)

/-- `Math.max(0, Math.min(videoX, captureWidth - 1))` and the analogous
clamp for `videoY`. -/
def clampedCoords (v : View) (termX termY : ℤ) : ℤ × ℤ :=
  let p := videoCoords v termX termY
  (max 0 (min p.1 ((v.captureWidth : ℤ) - 1)),
   max 0 (min p.2 ((v.captureHeight : ℤ) - 1)))

/-- `idx = (y * captureWidth + x) * 3` over the clamped coordinates. -/
def bufIdx (v : View) (termX termY : ℤ) : ℤ :=
  let c := clampedCoords v termX termY
  (c.2 * (v.captureWidth : ℤ) + c.1) * 3

/-- Read one byte of `videoBuffer` (all reads performed by the sampler use
non-negative indices, so `Int.toNat` is exact). -/
def byteAt (v : View) (i : ℤ) : ℚ :=
  (v.videoBuffer.getD i.toNat 0 : ℚ)

/-- Index of a neighbour sample in the `zoom > 3` averaging loop, with each
neighbour clamped independently. -/
def neighborIdx (v : View) (x y dx dy : ℤ) : ℤ :=
  let sx := max 0 (min (x + dx) ((v.captureWidth : ℤ) - 1))
  let sy := max 0 (min (y + dy) ((v.captureHeight : ℤ) - 1))
  (sy * (v.captureWidth : ℤ) + sx) * 3

/-- The `(dx, dy)` visiting order of the radius-1 averaging loop
(`dy` outer, `dx` inner). -/
def offsets : List (ℤ × ℤ) :=
  [(-1, -1), (0, -1), (1, -1), (-1, 0), (0, 0), (1, 0), (-1, 1), (0, 1),
   (1, 1)]

/-- `sampleVideoPixel(termX, termY)`: map the terminal cell into the
zoomed viewport, clamp, and read the pixel; at `zoomLevel > 3` average a
3×3 neighbourhood (skipping out-of-buffer neighbours); return black when
the computed index is outside the buffer. -/
def sampleVideoPixel (v : View) (termX termY : ℤ) : ℚ × ℚ × ℚ :=
  let c := clampedCoords v termX termY
  let idx := bufIdx v termX termY
  if idx + 2 < (v.videoBuffer.length : ℤ) then
    if 3 < v.zoomLevel then
      let acc := offsets.foldl
        (fun (a : ℚ × ℚ × ℚ × ℕ) (d : ℤ × ℤ) =>
          let sidx := neighborIdx v c.1 c.2 d.1 d.2
          if sidx + 2 < (v.videoBuffer.length : ℤ) then
            (a.1 + byteAt v sidx, a.2.1 + byteAt v (sidx + 1),
             a.2.2.1 + byteAt v (sidx + 2), a.2.2.2 + 1)
          else a)
        (0, 0, 0, 0)
      if 0 < acc.2.2.2 then
        (acc.1 / (acc.2.2.2 : ℚ), acc.2.1 / (acc.2.2.2 : ℚ),
         acc.2.2.1 / (acc.2.2.2 : ℚ))
      else (byteAt v idx, byteAt v (idx + 1), byteAt v (idx + 2))
    else (byteAt v idx, byteAt v (idx + 1), byteAt v (idx + 2))
  else (0, 0, 0)

/-- `pan(dx, dy)`: only when zoomed in, move the pan centre at `panSpeed`
and clamp it to `[0, 1]`; nothing else changes. -/
structure PanState where
  zoomLevel : ℚ
  panX : ℚ
  panY : ℚ
  panSpeed : ℚ
deriving DecidableEq

def pan (s : PanState) (dx dy : ℚ) : PanState :=
  if 1 < s.zoomLevel then
    let adjustedSpeed := s.panSpeed
    { s with panX := max 0 (min 1 (s.panX + dx * adjustedSpeed)),
             panY := max 0 (min 1 (s.panY + dy * adjustedSpeed)) }
  else s

end TZ

namespace QD

/-- An RGB sub-sample (one of the 2×2 pixels of a character cell). -/
structure RGB where
  r : ℚ
  g : ℚ
  b : ℚ
deriving DecidableEq

/-- ITU-R luma: `0.299 r + 0.587 g + 0.114 b`. -/
def luminance (p : RGB) : ℚ :=
  299 / 1000 * p.r + 587 / 1000 * p.g + 114 / 1000 * p.b

/-- The 16 quadrant glyphs, indexed by the dark-quadrant bit mask
(TL = 8, TR = 4, BL = 2, BR = 1). -/
def quadrantChars : List Char :=
  [' ', '▗', '▖', '▄', '▝', '▐', '▞', '▟', '▘', '▚', '▌', '▙', '▀', '▜',
   '▛', '█']

/-- `Math.round` on the non-negative values produced here. -/
def jsRound (q : ℚ) : ℤ := ⌊q + 1 / 2⌋

/-- `avgLum = luminances.reduce((a, b) => a + b) / 4`. -/
def avgLum (p0 p1 p2 p3 : RGB) : ℚ :=
  (luminance p0 + luminance p1 + luminance p2 + luminance p3) / 4

/-- The quadrant bit mask: TL=8, TR=4, BL=2, BR=1, a bit set when the
sub-sample is darker than the mean luminance. -/
def quadrantBits (p0 p1 p2 p3 : RGB) : ℕ :=
  let m := avgLum p0 p1 p2 p3
  (if luminance p0 < m then 8 else 0) + (if luminance p1 < m then 4 else 0)
    + (if luminance p2 < m then 2 else 0)
    + (if luminance p3 < m then 1 else 0)

/-- Accumulator for the dark/light colour averages (`{r, g, b, count}`). -/
structure ColorAcc where
  r : ℚ
  g : ℚ
  b : ℚ
  count : ℕ
deriving DecidableEq

def addPix (a : ColorAcc) (p : RGB) : ColorAcc :=
  ⟨a.r + p.r, a.g + p.g, a.b + p.b, a.count + 1⟩

/-- `renderQuadrant(pixels)` with `pixels = [TL, TR, BL, BR]`: partition
the four sub-samples into dark/light against their mean luminance, pick
the glyph by the dark bit mask, average the colours of each partition
(rounding), keep `{0,0,0}` for an empty dark partition and fall back to
white `{255,255,255}` for an empty light partition; `fg` is the dark
average, `bg` the light average. -/
def renderQuadrant (p0 p1 p2 p3 : RGB) :
    Char × (ℤ × ℤ × ℤ) × (ℤ × ℤ × ℤ) :=
  let m := avgLum p0 p1 p2 p3
  let char := quadrantChars.getD (quadrantBits p0 p1 p2 p3) ' '
  let pairs : List (RGB × Bool) :=
    [(p0, decide (luminance p0 < m)), (p1, decide (luminance p1 < m)),
     (p2, decide (luminance p2 < m)), (p3, decide (luminance p3 < m))]
  let acc := pairs.foldl
    (fun (a : ColorAcc × ColorAcc) pd =>
      if pd.2 then (addPix a.1 pd.1, a.2) else (a.1, addPix a.2 pd.1))
    (⟨0, 0, 0, 0⟩, ⟨0, 0, 0, 0⟩)
  let dark := acc.1
  let light := acc.2
  let fg : ℤ × ℤ × ℤ :=
    if 0 < dark.count then
      (jsRound (dark.r / (dark.count : ℚ)),
       jsRound (dark.g / (dark.count : ℚ)),
       jsRound (dark.b / (dark.count : ℚ)))
    else (0, 0, 0)
  let bg : ℤ × ℤ × ℤ :=
    if 0 < light.count then
      (jsRound (light.r / (light.count : ℚ)),
       jsRound (light.g / (light.count : ℚ)),
       jsRound (light.b / (light.count : ℚ)))
    else (255, 255, 255)
  (char, fg, bg)

/-- The viewer state read by `getPixel` (rgba video buffer at 2× terminal
resolution). -/
structure Viewer where
  videoWidth : ℕ
  videoHeight : ℕ
  videoBuffer : List ℕ

/-- `getPixel(x, y)`: black outside the video extent, otherwise the RGB
bytes at `(y * videoWidth + x) * 4`. -/
def getPixel (w : Viewer) (x y : ℕ) : ℕ × ℕ × ℕ :=
  if w.videoWidth ≤ x ∨ w.videoHeight ≤ y then (0, 0, 0)
  else
    let idx := (y * w.videoWidth + x) * 4
    (w.videoBuffer.getD idx 0, w.videoBuffer.getD (idx + 1) 0,
     w.videoBuffer.getD (idx + 2) 0)

end QD

namespace SS

/-- `Math.min(...luminances)` over the four sub-samples of one cell of
the supersample viewer's `renderFallback`. -/
def lmin (p0 p1 p2 p3 : QD.RGB) : ℚ :=
  min (min (min (QD.luminance p0) (QD.luminance p1)) (QD.luminance p2))
    (QD.luminance p3)

/-- `Math.max(...luminances)` over the four sub-samples. -/
def lmax (p0 p1 p2 p3 : QD.RGB) : ℚ :=
  max (max (max (QD.luminance p0) (QD.luminance p1)) (QD.luminance p2))
    (QD.luminance p3)

/-- `pixels[luminances.indexOf(Math.min(...luminances))]`: the first
sub-sample whose luminance is the minimum. -/
def darkColor (p0 p1 p2 p3 : QD.RGB) : QD.RGB :=
  if QD.luminance p0 = lmin p0 p1 p2 p3 then p0
  else if QD.luminance p1 = lmin p0 p1 p2 p3 then p1
  else if QD.luminance p2 = lmin p0 p1 p2 p3 then p2
  else p3

/-- `pixels[luminances.indexOf(Math.max(...luminances))]`: the first
sub-sample whose luminance is the maximum. -/
def lightColor (p0 p1 p2 p3 : QD.RGB) : QD.RGB :=
  if QD.luminance p0 = lmax p0 p1 p2 p3 then p0
  else if QD.luminance p1 = lmax p0 p1 p2 p3 then p1
  else if QD.luminance p2 = lmax p0 p1 p2 p3 then p2
  else p3

/-- One cell of `renderFallback` (the supersample viewer's manual
quadrant path) with `pixels = [TL, TR, BL, BR]`: a quadrant counts as
dark when its luminance is below the luminance of the component-wise
averaged colour; the glyph comes from the same 16-glyph table indexed by
the same dark bit mask, while `fg`/`bg` are the darkest and lightest
sub-sample colours themselves — no partition averaging and no white
fallback. -/
def renderFallbackCell (p0 p1 p2 p3 : QD.RGB) : Char × QD.RGB × QD.RGB :=
  let avgColor : QD.RGB :=
    ⟨(p0.r + p1.r + p2.r + p3.r) / 4, (p0.g + p1.g + p2.g + p3.g) / 4,
     (p0.b + p1.b + p2.b + p3.b) / 4⟩
  let avgLum := QD.luminance avgColor
  let bits := (if QD.luminance p0 < avgLum then 8 else 0)
    + (if QD.luminance p1 < avgLum then 4 else 0)
    + (if QD.luminance p2 < avgLum then 2 else 0)
    + (if QD.luminance p3 < avgLum then 1 else 0)
  (QD.quadrantChars.getD bits ' ', darkColor p0 p1 p2 p3,
   lightColor p0 p1 p2 p3)

end SS

/-- Mean-comparison partition of the four sub-samples, written from the
specification: the "dark" partition holds the sub-samples whose luminance
is strictly below the mean of the four, the "light" partition the rest. -/
def specDarkPartition (p0 p1 p2 p3 : QD.RGB) : List QD.RGB :=
  ([p0, p1, p2, p3]).filter
    (fun p => decide (QD.luminance p < QD.avgLum p0 p1 p2 p3))

def specLightPartition (p0 p1 p2 p3 : QD.RGB) : List QD.RGB :=
  ([p0, p1, p2, p3]).filter
    (fun p => !decide (QD.luminance p < QD.avgLum p0 p1 p2 p3))

/-- The 4-bit mask of the specification: one bit per quadrant, most
significant bit for top-left. -/
def specMask (p0 p1 p2 p3 : QD.RGB) : ℕ :=
  8 * (if QD.luminance p0 < QD.avgLum p0 p1 p2 p3 then 1 else 0)
    + 4 * (if QD.luminance p1 < QD.avgLum p0 p1 p2 p3 then 1 else 0)
    + 2 * (if QD.luminance p2 < QD.avgLum p0 p1 p2 p3 then 1 else 0)
    + 1 * (if QD.luminance p3 < QD.avgLum p0 p1 p2 p3 then 1 else 0)

/-- Rounded component-wise average colour of a partition, written from the
specification. -/
def specAvgColor (l : List QD.RGB) : ℤ × ℤ × ℤ :=
  (QD.jsRound ((l.map QD.RGB.r).sum / (l.length : ℚ)),
   QD.jsRound ((l.map QD.RGB.g).sum / (l.length : ℚ)),
   QD.jsRound ((l.map QD.RGB.b).sum / (l.length : ℚ)))

namespace DR

/-- View-state fields touched by `pan` in `webcam-dynamic-res.ts`
(`zoomX`/`zoomY` are the pan centre there). -/
structure PanState where
  zoomLevel : ℚ
  zoomX : ℚ
  zoomY : ℚ
  panSpeed : ℚ
deriving DecidableEq

/-- `pan(dx, dy)`: only when zoomed in, move the centre at
`panSpeed / zoomLevel` and clamp to `[0, 1]`. -/
def pan (s : PanState) (dx dy : ℚ) : PanState :=
  if 1 < s.zoomLevel then
    let adjustedSpeed := s.panSpeed / s.zoomLevel
    { s with zoomX := max 0 (min 1 (s.zoomX + dx * adjustedSpeed)),
             zoomY := max 0 (min 1 (s.zoomY + dy * adjustedSpeed)) }
  else s

/-- The six display modes of `webcam-dynamic-res.ts`. -/
inductive DisplayMode
  | blocks
  | shades
  | ascii
  | braille
  | dots
  | pixels
deriving DecidableEq

def blockChars : List Char :=
  [' ', '▁', '▂', '▃', '▄', '▅', '▆', '▇', '█']

def shadeChars : List Char := [' ', '░', '▒', '▓', '█']

def asciiChars : List Char :=
  [' ', '.', ',', ':', ';', 'o', 'x', '%', '#', '@']

def brailleChars : List Char :=
  [' ', '⡀', '⡄', '⡆', '⡇', '⣇', '⣧', '⣷', '⣿']

def dotChars : List Char :=
  [' ', '·', '∙', '●', '○', '◐', '◑', '◒', '◓', '◔', '◕', '◖', '◗', '◌',
   '◍', '◎', '◉']

def pixelChar : Char := '█'

/-- `normalizedBrightness = Math.min(1, Math.max(0, brightness / 255))`. -/
def normBrightness (brightness : ℚ) : ℚ :=
  min 1 (max 0 (brightness / 255))

/-- `Math.floor(normalizedBrightness * (ramp.length - 1))`. -/
def rampIndex (ramp : List Char) (brightness : ℚ) : ℤ :=
  ⌊normBrightness brightness * ((ramp.length : ℚ) - 1)⌋

/-- `getCharForBrightness`: index the ramp of the current mode (JS string
indexing yields `undefined` out of range, embedded as `none`); pixel mode
always yields the full block. -/
def getCharForBrightness (mode : DisplayMode) (brightness : ℚ) :
    Option Char :=
  match mode with
  | .blocks => blockChars.get? (rampIndex blockChars brightness).toNat
  | .shades => shadeChars.get? (rampIndex shadeChars brightness).toNat
  | .ascii => asciiChars.get? (rampIndex asciiChars brightness).toNat
  | .braille => brailleChars.get? (rampIndex brailleChars brightness).toNat
  | .dots => dotChars.get? (rampIndex dotChars brightness).toNat
  | .pixels => some pixelChar

/-- The glyph ramp of each ramp display mode (`none` for pixel mode). -/
def rampOf : DisplayMode → Option (List Char)
  | .blocks => some blockChars
  | .shades => some shadeChars
  | .ascii => some asciiChars
  | .braille => some brailleChars
  | .dots => some dotChars
  | .pixels => none

/-- `brightness = r * 0.299 + g * 0.587 + b * 0.114`. -/
def luma (r g b : ℚ) : ℚ :=
  r * (299 / 1000) + g * (587 / 1000) + b * (114 / 1000)

/-- The numeric part of `toHex`:
`Math.round(Math.max(0, Math.min(255, n)))`. -/
def cellColorComp (n : ℚ) : ℤ := QD.jsRound (max 0 (min 255 n))

/-- The colour assignment of `renderFrame`: pixel mode paints fg and bg
with the sample colour; every other mode paints fg with the sample colour
over a black background. -/
def encodeFgBg (mode : DisplayMode) (r g b : ℚ) :
    (ℤ × ℤ × ℤ) × (ℤ × ℤ × ℤ) :=
  let color := (cellColorComp r, cellColorComp g, cellColorComp b)
  if mode = .pixels then (color, color)
  else if mode = .blocks ∨ mode = .shades then (color, (0, 0, 0))
  else (color, (0, 0, 0))

/-- `cleanup()` ends with `process.exit(0)` — for the user quit keys and
for every other caller alike. -/
def cleanupExitCode : ℕ := 0

/-- The `ffmpeg.on('exit')` handler of `webcam-dynamic-res.ts`: during a
planned restart the event is ignored; otherwise it logs the code and runs
`cleanup()`, so the process exits with `cleanupExitCode`. -/
def ffmpegExitHandler (isRestarting : Bool) (code : ℤ) : Option ℕ :=
  if isRestarting then none else some cleanupExitCode

end DR

namespace SA

/-- Standalone viewer, `ffmpeg.on('error')` (spawn failure):
`process.exit(1)`. -/
def onFfmpegError : ℕ := 1

/-- Standalone viewer, `ffmpeg.on('exit', code)`: logs a non-zero `code`,
then always `process.exit(0)`. -/
def onFfmpegExit (code : Option ℤ) : ℕ := 0

/-- Standalone viewer: `process.exit(1)` when device enumeration finds no
cameras. -/
def noDevicesExitCode : ℕ := 1

/-- Standalone viewer, SIGINT (user quit): `process.exit(0)`. -/
def onSigint : ℕ := 0

end SA

namespace OC

/-- A `TextRenderable` of the bundled opentui core: one terminal cell (or
overlay string) with optional colours and a z-index. -/
structure TextRenderable where
  id : String
  content : String
  x : ℕ
  y : ℕ
  fg : Option String
  bg : Option String
  zIndex : ℤ
deriving DecidableEq

/-- Interpolation of a possibly-`undefined` field in a template literal. -/
def showField : Option String → String
  | some s => s
  | none => "undefined"

/-- `stateHash = content + "|" + fg + "|" + bg + "|" + x + "|" + y`. -/
def stateHash (r : TextRenderable) : String :=
  r.content ++ "|" ++ showField r.fg ++ "|" ++ showField r.bg ++ "|"
    ++ toString r.x ++ "|" ++ toString r.y

/-- The group of terminal writes emitted for one changed renderable:
cursor move, a line-clear first only for `zIndex ≥ 1000` overlays that
have a background, colour escapes, and the content. -/
structure WriteOp where
  x : ℕ
  y : ℕ
  lineClear : Bool
  fg : Option String
  bg : Option String
  content : String
deriving DecidableEq

def writeOpFor (r : TextRenderable) : WriteOp :=
  ⟨r.x, r.y, decide (1000 ≤ r.zIndex) && r.bg.isSome, r.fg, r.bg,
   r.content⟩

/-- One pass of `renderLoop` over the z-sorted renderables: a renderable
whose state hash matches `lastRenderState` is skipped; otherwise its
writes are emitted and the hash recorded. -/
def renderPass : (String → Option String) → List TextRenderable →
    (String → Option String) × List WriteOp
  | m, [] => (m, [])
  | m, r :: rs =>
    if m r.id = some (stateHash r) then renderPass m rs
    else
      let m' := fun id => if id = r.id then some (stateHash r) else m id
      let rest := renderPass m' rs
      (rest.1, writeOpFor r :: rest.2)

/-- `renderLoop`: sort the renderables by z-index (JS `Array.sort` is
stable) and diff them against `lastRenderState`. -/
def renderLoop (m : String → Option String) (rs : List TextRenderable) :
    (String → Option String) × List WriteOp :=
  renderPass m (rs.mergeSort (fun a b => decide (a.zIndex ≤ b.zIndex)))

end OC

/-- Invariant of one `processVideoData` call: the completed frames followed
by the final partial buffer are exactly the old partial buffer followed by
the chunk; the final partial buffer is a proper prefix of a frame; every
completed frame has exactly `expectedSize` bytes. -/
lemma processVideoData_spec (expectedSize : ℕ) :
    ∀ (chunk buf : List ℕ), buf.length < expectedSize →
      ((TZ.processVideoData expectedSize buf chunk).2.flatten
          ++ (TZ.processVideoData expectedSize buf chunk).1 = buf ++ chunk)
      ∧ (TZ.processVideoData expectedSize buf chunk).1.length < expectedSize
      ∧ ∀ f ∈ (TZ.processVideoData expectedSize buf chunk).2,
          f.length = expectedSize := by
  have aux : ∀ (n : ℕ) (chunk buf : List ℕ), chunk.length ≤ n →
      buf.length < expectedSize →
      ((TZ.processVideoData expectedSize buf chunk).2.flatten
          ++ (TZ.processVideoData expectedSize buf chunk).1 = buf ++ chunk)
      ∧ (TZ.processVideoData expectedSize buf chunk).1.length < expectedSize
      ∧ ∀ f ∈ (TZ.processVideoData expectedSize buf chunk).2,
          f.length = expectedSize := by
    intro n
    induction n with
    | zero =>
      intro chunk buf hn hb
      have hc : chunk = [] := List.eq_nil_of_length_eq_zero (by omega)
      subst hc
      rw [TZ.processVideoData]
      simp only [if_pos (Or.inl rfl)]
      simpa using hb
    | succ n ih =>
      intro chunk buf hn hb
      rw [TZ.processVideoData]
      by_cases h0 : chunk = [] ∨ expectedSize ≤ buf.length
      · have hc : chunk = [] := by
          rcases h0 with h | h
          · exact h
          · omega
        subst hc
        simp only [if_pos (Or.inl rfl)]
        simpa using hb
      · simp only [h0, if_false]
        push_neg at h0
        obtain ⟨hc, _⟩ := h0
        have hlen : 0 < chunk.length := List.length_pos.mpr hc
        set toRead := min (expectedSize - buf.length) chunk.length with htr
        have htr1 : 1 ≤ toRead := by omega
        have hbuf2 : (buf ++ chunk.take toRead).length = buf.length + toRead := by
          simp [List.length_take]
          omega
        by_cases h2 : expectedSize ≤ (buf ++ chunk.take toRead).length
        · simp only [h2, if_true]
          have hdrop : (chunk.drop toRead).length ≤ n := by
            simp only [List.length_drop]
            omega
          have hrec := ih (chunk.drop toRead) [] hdrop (by simpa using by omega)
          refine ⟨?_, hrec.2.1, ?_⟩
          · simp only [List.flatten_cons]
            have := hrec.1
            simp only [List.nil_append] at this
            rw [List.append_assoc, this, List.append_assoc,
              List.take_append_drop]
          · intro f hf
            rw [List.mem_cons] at hf
            rcases hf with rfl | hf
            · rw [hbuf2]
              omega
            · exact hrec.2.2 f hf
        · simp only [h2, if_false]
          push_neg at h2
          have : toRead = chunk.length := by
            rw [hbuf2] at h2
            omega
          refine ⟨?_, h2, by simp⟩
          simp [this]
  intro chunk buf hb
  exact aux chunk.length chunk buf le_rfl hb

/-- Invariant of feeding a whole chunk sequence. -/
lemma feedChunks_spec (expectedSize : ℕ) :
    ∀ (chunks : List (List ℕ)) (buf : List ℕ), buf.length < expectedSize →
      ((TZ.feedChunks expectedSize buf chunks).2.flatten
          ++ (TZ.feedChunks expectedSize buf chunks).1 = buf ++ chunks.flatten)
      ∧ (TZ.feedChunks expectedSize buf chunks).1.length < expectedSize
      ∧ ∀ f ∈ (TZ.feedChunks expectedSize buf chunks).2,
          f.length = expectedSize := by
  intro chunks
  induction chunks with
  | nil => intro buf hb; simpa [TZ.feedChunks] using hb
  | cons c cs ih =>
    intro buf hb
    have h1 := processVideoData_spec expectedSize c buf hb
    have h2 := ih (TZ.processVideoData expectedSize buf c).1 h1.2.1
    refine ⟨?_, h2.2.1, ?_⟩
    · simp only [TZ.feedChunks, List.flatten_append, List.flatten_cons]
      rw [List.append_assoc, h2.1, ← List.append_assoc, h1.1, List.append_assoc]
    · intro f hf
      simp only [TZ.feedChunks, List.mem_append] at hf
      rcases hf with hf | hf
      · exact h1.2.2 f hf
      · exact h2.2.2 f hf

/-- Lists of uniform length `n` are indexed by slices of their join. -/
lemma get_eq_join_slice {n : ℕ} :
    ∀ (L : List (List ℕ)), (∀ f ∈ L, f.length = n) →
      ∀ i, i < L.length →
        L.get? i = some ((L.flatten.drop (i * n)).take n) := by
  intro L
  induction L with
  | nil => intro _ i hi; simp at hi
  | cons f fs ih =>
    intro hlen i hi
    cases i with
    | zero =>
      simp only [List.get?_cons_zero, List.flatten_cons, Nat.zero_mul,
        List.drop_zero]
      rw [List.take_left' (hlen f (by simp))]
    | succ j =>
      have hf : f.length = n := hlen f (by simp)
      simp only [List.get?_cons_succ, List.flatten_cons]
      rw [ih (fun g hg => hlen g (by simp [hg])) j (by simpa using hi)]
      congr 1
      have : (j + 1) * n = n + j * n := by ring
      rw [this, ← List.drop_drop, List.drop_left' hf]

/-- Flatten of a list of uniform-length lists. -/
lemma flatten_length_const {n : ℕ} :
    ∀ (L : List (List ℕ)), (∀ f ∈ L, f.length = n) →
      L.flatten.length = L.length * n := by
  intro L
  induction L with
  | nil => intro _; simp
  | cons f fs ih =>
    intro hlen
    have hf : f.length = n := hlen f (by simp)
    have hfs := ih (fun g hg => hlen g (by simp [hg]))
    simp only [List.flatten_cons, List.length_append, List.length_cons, hf, hfs]
    ring

/-- C1: for every sequence of byte chunks whose total length is `k` times
the frame size, feeding them in order to `processVideoData` signals
"frame complete" exactly `k` times, and the bytes of the `i`-th completed
frame equal the `i`-th `expectedSize`-long slice of the concatenated
input, in order. -/
theorem frame_reassembly_C1 (expectedSize k : ℕ) (hfs : 0 < expectedSize)
    (chunks : List (List ℕ))
    (htot : chunks.flatten.length = k * expectedSize) :
    (TZ.feedChunks expectedSize [] chunks).2.length = k ∧
    ∀ i, i < k →
      (TZ.feedChunks expectedSize [] chunks).2.get? i
        = some ((chunks.flatten.drop (i * expectedSize)).take expectedSize) := by
  have h := feedChunks_spec expectedSize chunks [] (by simpa using hfs)
  obtain ⟨hjoin, hlt, hall⟩ := h
  set F := (TZ.feedChunks expectedSize [] chunks).2 with hF
  set B := (TZ.feedChunks expectedSize [] chunks).1 with hB
  have hflat : F.flatten.length = F.length * expectedSize :=
    flatten_length_const F hall
  have hsum : F.length * expectedSize + B.length = k * expectedSize := by
    have hlen := congrArg List.length hjoin
    rw [List.length_append, hflat, List.nil_append, htot] at hlen
    exact hlen
  have hle : F.length ≤ k := by
    have hmul : F.length * expectedSize ≤ k * expectedSize := by omega
    exact Nat.le_of_mul_le_mul_right
      (by simpa [Nat.mul_comm] using hmul) hfs
  have hge : k ≤ F.length := by
    have hmul : k * expectedSize < (F.length + 1) * expectedSize := by
      have : (F.length + 1) * expectedSize
          = F.length * expectedSize + expectedSize := by ring
      omega
    have := Nat.lt_of_mul_lt_mul_right
      (by simpa [Nat.mul_comm] using hmul)
    omega
  have hFk : F.length = k := le_antisymm hle hge
  have hB0 : B = [] := by
    have : B.length = 0 := by
      have := hsum
      rw [hFk] at this
      omega
    exact List.eq_nil_of_length_eq_zero this
  have hFj : F.flatten = chunks.flatten := by
    have := hjoin
    rw [hB0] at this
    simpa using this
  refine ⟨hFk, ?_⟩
  intro i hi
  have := get_eq_join_slice F hall i (by omega)
  rw [hFj] at this
  exact this

/-- Witness for C1 at frame size 3 with a 1-byte chunk and a chunk spanning
a frame boundary. -/
theorem frame_reassembly_C1_witness :
    (TZ.feedChunks 3 [] [[1], [2, 3, 4], [5, 6]]).2.length = 2 ∧
    (TZ.feedChunks 3 [] [[1], [2, 3, 4], [5, 6]]).2.get? 1
      = some [4, 5, 6] := by
  have h := frame_reassembly_C1 3 2 (by norm_num) [[1], [2, 3, 4], [5, 6]]
    (by rfl)
  refine ⟨h.1, ?_⟩
  rw [h.2 1 (by norm_num)]
  rfl

/-- `adjustZoom` never touches the active zoom or the restart log, and it
raises the timer flag exactly when it changes the pending zoom. -/
lemma adjustZoom_inv (c : TZ.Ctrl) (d : ℚ) :
    (TZ.adjustZoom c d).zoomLevel = c.zoomLevel ∧
    (TZ.adjustZoom c d).restarts = c.restarts ∧
    ((TZ.adjustZoom c d).restartTimer = false → TZ.adjustZoom c d = c) := by
  unfold TZ.adjustZoom
  by_cases h : max 1 (min 8 (c.pendingZoomLevel + d)) ≠ c.pendingZoomLevel
  · simp [h]
  · simp [h]

/-- Along a burst from a quiescent state, the active zoom and the restart
log never change, and a clear timer flag means no request changed the
pending zoom. -/
lemma foldl_adjustZoom_inv (c : TZ.Ctrl) (hq : TZ.Quiescent c) :
    ∀ deltas : List ℚ,
      (deltas.foldl TZ.adjustZoom c).zoomLevel = c.zoomLevel ∧
      (deltas.foldl TZ.adjustZoom c).restarts = [] ∧
      ((deltas.foldl TZ.adjustZoom c).restartTimer = false →
        (deltas.foldl TZ.adjustZoom c).pendingZoomLevel = c.zoomLevel) := by
  obtain ⟨ht, hp, hr⟩ := hq
  suffices h : ∀ (deltas : List ℚ) (s : TZ.Ctrl),
      s.zoomLevel = c.zoomLevel → s.restarts = [] →
      (s.restartTimer = false → s.pendingZoomLevel = c.zoomLevel) →
      (deltas.foldl TZ.adjustZoom s).zoomLevel = c.zoomLevel ∧
      (deltas.foldl TZ.adjustZoom s).restarts = [] ∧
      ((deltas.foldl TZ.adjustZoom s).restartTimer = false →
        (deltas.foldl TZ.adjustZoom s).pendingZoomLevel = c.zoomLevel) by
    exact fun deltas => h deltas c rfl hr (fun _ => hp)
  intro deltas
  induction deltas with
  | nil => intro s h1 h2 h3; exact ⟨h1, h2, h3⟩
  | cons d ds ih =>
    intro s h1 h2 h3
    have hstep := adjustZoom_inv s d
    refine ih (TZ.adjustZoom s d) (hstep.1.trans h1) (hstep.2.1.trans h2) ?_
    intro hzt
    have heq := hstep.2.2 hzt
    rw [heq] at hzt ⊢
    exact h3 hzt

/-- C2 as stated is false: a burst of two zoom requests (`+0.5` then
`-0.5`) inside the quiet period leaves the pending zoom equal to the
active one, so the timer callback performs zero restarts, not one. -/
theorem zoom_debounce_C2_counterexample :
    TZ.Quiescent ⟨1, 1, 1/2, 1/2, false, []⟩ ∧
    (TZ.burst ⟨1, 1, 1/2, 1/2, false, []⟩ [1/2, -1/2]).restarts.length
      = 0 := by
  refine ⟨⟨rfl, rfl, rfl⟩, ?_⟩
  norm_num [TZ.burst, TZ.adjustZoom, TZ.fireRestartTimer, TZ.startFFmpeg,
    List.foldl]

/-- C2 amended: a burst of zoom requests inside the debounce quiet period
performs at most one restart; a restart happens exactly when the final
pending zoom differs from the active zoom, and then it uses the zoom value
left by the last request — never an intermediate one. -/
theorem zoom_debounce_C2 (c : TZ.Ctrl) (hq : TZ.Quiescent c)
    (deltas : List ℚ) :
    (TZ.burst c deltas).restarts.length ≤ 1 ∧
    (TZ.burst c deltas).restarts =
      (if (deltas.foldl TZ.adjustZoom c).pendingZoomLevel = c.zoomLevel
       then []
       else [(deltas.foldl TZ.adjustZoom c).pendingZoomLevel]) := by
  have hinv := foldl_adjustZoom_inv c hq deltas
  obtain ⟨hz, hr, htp⟩ := hinv
  set s := deltas.foldl TZ.adjustZoom c with hs
  unfold TZ.burst TZ.fireRestartTimer TZ.startFFmpeg
  rw [← hs]
  by_cases ht : s.restartTimer = true
  · by_cases hne : s.pendingZoomLevel = s.zoomLevel
    · have hpc : s.pendingZoomLevel = c.zoomLevel := hne.trans hz
      simp [ht, hne, hr, hpc, hz]
    · have hpc : s.pendingZoomLevel ≠ c.zoomLevel := by
        rw [← hz]; exact hne
      simp [ht, hne, hr, hpc, hz]
  · have htf : s.restartTimer = false := by
      simpa using ht
    have hpc : s.pendingZoomLevel = c.zoomLevel := htp htf
    simp [htf, hr, hpc]

/-- Witness for the amended C2: three rapid `+0.5` requests from zoom 1
coalesce into one restart at the final pending zoom 2.5. -/
theorem zoom_debounce_C2_witness :
    TZ.Quiescent ⟨1, 1, 1/2, 1/2, false, []⟩ ∧
    (TZ.burst ⟨1, 1, 1/2, 1/2, false, []⟩ [1/2, 1/2, 1/2]).restarts.length
      ≤ 1 ∧
    (TZ.burst ⟨1, 1, 1/2, 1/2, false, []⟩
        [1/2, 1/2, 1/2]).restarts = [5/2] := by
  have hq : TZ.Quiescent ⟨1, 1, 1/2, 1/2, false, []⟩ := ⟨rfl, rfl, rfl⟩
  have h := zoom_debounce_C2 _ hq [1/2, 1/2, 1/2]
  refine ⟨hq, h.1, ?_⟩
  rw [h.2]
  norm_num [TZ.adjustZoom, List.foldl]
/-- C3 part: clamped coords in range, buffer read in bounds. -/
theorem viewport_clamp_C3 :
    (∃ (v : TZ.View) (tx ty : ℤ),
        1 ≤ v.zoomLevel ∧ 0 ≤ v.panX ∧ v.panX ≤ 1 ∧ 0 ≤ v.panY ∧
        v.panY ≤ 1 ∧ (TZ.videoCoords v tx ty).2 < 0) ∧
    (∀ (v : TZ.View) (tx ty : ℤ), 1 ≤ v.captureWidth →
        1 ≤ v.captureHeight → 1 ≤ v.zoomLevel → 0 ≤ v.panX → v.panX ≤ 1 →
        0 ≤ v.panY → v.panY ≤ 1 →
        0 ≤ (TZ.clampedCoords v tx ty).1 ∧
        (TZ.clampedCoords v tx ty).1 ≤ (v.captureWidth : ℤ) - 1 ∧
        0 ≤ (TZ.clampedCoords v tx ty).2 ∧
        (TZ.clampedCoords v tx ty).2 ≤ (v.captureHeight : ℤ) - 1 ∧
        (v.videoBuffer.length = v.captureWidth * v.captureHeight * 3 →
          TZ.bufIdx v tx ty + 2 < (v.videoBuffer.length : ℤ))) := by
  constructor
  · refine ⟨⟨4, 4, 4, 4, 1, 0, 0, []⟩, 0, 0, by norm_num, by norm_num,
      by norm_num, by norm_num, by norm_num, ?_⟩
    norm_num [TZ.videoCoords]
  · intro v tx ty hw hh hz hpx0 hpx1 hpy0 hpy1
    have hwZ : (1 : ℤ) ≤ (v.captureWidth : ℤ) := by exact_mod_cast hw
    have hhZ : (1 : ℤ) ≤ (v.captureHeight : ℤ) := by exact_mod_cast hh
    unfold TZ.bufIdx TZ.clampedCoords
    refine ⟨le_max_left _ _, ?_, le_max_left _ _, ?_, ?_⟩
    · exact max_le (by omega) (min_le_right _ _)
    · exact max_le (by omega) (min_le_right _ _)
    · intro hlen
      rw [hlen]
      push_cast
      set X := max 0 (min (TZ.videoCoords v tx ty).1 ((v.captureWidth : ℤ) - 1)) with hX
      set Y := max 0 (min (TZ.videoCoords v tx ty).2 ((v.captureHeight : ℤ) - 1)) with hY
      have hX0 : 0 ≤ X := le_max_left _ _
      have hX1 : X ≤ (v.captureWidth : ℤ) - 1 :=
        max_le (by omega) (min_le_right _ _)
      have hY0 : 0 ≤ Y := le_max_left _ _
      have hY1 : Y ≤ (v.captureHeight : ℤ) - 1 :=
        max_le (by omega) (min_le_right _ _)
      have hmul : Y * (v.captureWidth : ℤ)
          ≤ ((v.captureHeight : ℤ) - 1) * (v.captureWidth : ℤ) :=
        mul_le_mul_of_nonneg_right hY1 (by omega)
      linarith

/-- C8: out-of-buffer sampling falls back to black. -/
theorem sampler_black_fallback_C8 :
    (∀ (v : TZ.View) (tx ty : ℤ),
        (v.videoBuffer.length : ℤ) ≤ TZ.bufIdx v tx ty + 2 →
        TZ.sampleVideoPixel v tx ty = (0, 0, 0)) ∧
    (∀ (w : QD.Viewer) (x y : ℕ),
        w.videoWidth ≤ x ∨ w.videoHeight ≤ y →
        QD.getPixel w x y = (0, 0, 0)) := by
  constructor
  · intro v tx ty h
    unfold TZ.sampleVideoPixel
    rw [if_neg (by omega)]
  · intro w x y h
    unfold QD.getPixel
    rw [if_pos h]

theorem sampler_black_fallback_C8_witness :
    ((⟨4, 4, 4, 4, 1, 0, 0, []⟩ : TZ.View).videoBuffer.length : ℤ)
      ≤ TZ.bufIdx ⟨4, 4, 4, 4, 1, 0, 0, []⟩ 0 0 + 2 ∧
    TZ.sampleVideoPixel ⟨4, 4, 4, 4, 1, 0, 0, []⟩ 0 0 = (0, 0, 0) ∧
    (2 : ℕ) ≤ 5 ∧ QD.getPixel ⟨2, 2, []⟩ 5 0 = (0, 0, 0) := by
  have h1 : ((⟨4, 4, 4, 4, 1, 0, 0, []⟩ : TZ.View).videoBuffer.length : ℤ)
      ≤ TZ.bufIdx ⟨4, 4, 4, 4, 1, 0, 0, []⟩ 0 0 + 2 := by
    norm_num [TZ.bufIdx, TZ.clampedCoords, TZ.videoCoords]
  have h2 : (2 : ℕ) ≤ 5 := by norm_num
  exact ⟨h1, sampler_black_fallback_C8.1 _ 0 0 h1, h2,
    sampler_black_fallback_C8.2 ⟨2, 2, []⟩ 5 0 (Or.inl h2)⟩

/-- C10: pan. -/
theorem pan_C10 :
    (∀ (s : TZ.PanState) (dx dy : ℚ), s.zoomLevel ≤ 1 →
        TZ.pan s dx dy = s) ∧
    (∀ (s : TZ.PanState) (dx dy : ℚ), 1 < s.zoomLevel →
        (TZ.pan s dx dy).zoomLevel = s.zoomLevel ∧
        (TZ.pan s dx dy).panSpeed = s.panSpeed ∧
        0 ≤ (TZ.pan s dx dy).panX ∧ (TZ.pan s dx dy).panX ≤ 1 ∧
        0 ≤ (TZ.pan s dx dy).panY ∧ (TZ.pan s dx dy).panY ≤ 1) ∧
    (∀ (s : DR.PanState) (dx dy : ℚ), s.zoomLevel ≤ 1 →
        DR.pan s dx dy = s) ∧
    (∀ (s : DR.PanState) (dx dy : ℚ), 1 < s.zoomLevel →
        (DR.pan s dx dy).zoomLevel = s.zoomLevel ∧
        (DR.pan s dx dy).panSpeed = s.panSpeed ∧
        0 ≤ (DR.pan s dx dy).zoomX ∧ (DR.pan s dx dy).zoomX ≤ 1 ∧
        0 ≤ (DR.pan s dx dy).zoomY ∧ (DR.pan s dx dy).zoomY ≤ 1) := by
  refine ⟨?_, ?_, ?_, ?_⟩
  · intro s dx dy h
    unfold TZ.pan
    rw [if_neg (by exact not_lt.mpr h)]
  · intro s dx dy h
    unfold TZ.pan
    rw [if_pos h]
    refine ⟨rfl, rfl, le_max_left _ _, max_le (by norm_num) (min_le_left _ _),
      le_max_left _ _, max_le (by norm_num) (min_le_left _ _)⟩
  · intro s dx dy h
    unfold DR.pan
    rw [if_neg (by exact not_lt.mpr h)]
  · intro s dx dy h
    unfold DR.pan
    rw [if_pos h]
    refine ⟨rfl, rfl, le_max_left _ _, max_le (by norm_num) (min_le_left _ _),
      le_max_left _ _, max_le (by norm_num) (min_le_left _ _)⟩

theorem pan_C10_witness :
    TZ.pan ⟨1, 1/2, 1/2, 1/50⟩ 1 0 = ⟨1, 1/2, 1/2, 1/50⟩ ∧
    (TZ.pan ⟨2, 1/2, 1/2, 1/50⟩ 1 0).zoomLevel = 2 ∧
    0 ≤ (TZ.pan ⟨2, 1/2, 1/2, 1/50⟩ 1 0).panX ∧
    (TZ.pan ⟨2, 1/2, 1/2, 1/50⟩ 1 0).panX ≤ 1 ∧
    DR.pan ⟨1, 1/2, 1/2, 1/20⟩ 0 1 = ⟨1, 1/2, 1/2, 1/20⟩ ∧
    (DR.pan ⟨2, 1/2, 1/2, 1/20⟩ 0 1).zoomLevel = 2 ∧
    0 ≤ (DR.pan ⟨2, 1/2, 1/2, 1/20⟩ 0 1).zoomY ∧
    (DR.pan ⟨2, 1/2, 1/2, 1/20⟩ 0 1).zoomY ≤ 1 := by
  have h1 := pan_C10.1 ⟨1, 1/2, 1/2, 1/50⟩ 1 0 (by norm_num)
  have h2 := pan_C10.2.1 ⟨2, 1/2, 1/2, 1/50⟩ 1 0 (by norm_num)
  have h3 := pan_C10.2.2.1 ⟨1, 1/2, 1/2, 1/20⟩ 0 1 (by norm_num)
  have h4 := pan_C10.2.2.2 ⟨2, 1/2, 1/2, 1/20⟩ 0 1 (by norm_num)
  exact ⟨h1, h2.1, h2.2.2.1, h2.2.2.2.1, h3, h4.1, h4.2.2.2.2.1,
    h4.2.2.2.2.2⟩

/-- C7 counterexample. -/
theorem exit_code_C7_counterexample :
    DR.ffmpegExitHandler false 1 = some DR.cleanupExitCode ∧
    DR.cleanupExitCode = 0 ∧ SA.onFfmpegExit (some 1) = 0 :=
  ⟨rfl, rfl, rfl⟩

/-- C7 amended. -/
theorem exit_code_C7 :
    DR.cleanupExitCode = 0 ∧
    (∀ code : ℤ, DR.ffmpegExitHandler false code = some 0) ∧
    (∀ code : ℤ, DR.ffmpegExitHandler true code = none) ∧
    SA.onFfmpegError = 1 ∧ SA.noDevicesExitCode = 1 ∧
    (∀ code : Option ℤ, SA.onFfmpegExit code = 0) ∧ SA.onSigint = 0 :=
  ⟨rfl, fun _ => rfl, fun _ => rfl, rfl, rfl, fun _ => rfl, rfl⟩

theorem viewport_clamp_C3_witness :
    1 ≤ (⟨4, 4, 2, 2, 2, 1, 1, List.replicate 12 0⟩ : TZ.View).zoomLevel ∧
    0 ≤ (TZ.clampedCoords ⟨4, 4, 2, 2, 2, 1, 1, List.replicate 12 0⟩
        9 9).1 ∧
    TZ.bufIdx ⟨4, 4, 2, 2, 2, 1, 1, List.replicate 12 0⟩ 9 9 + 2
      < (((⟨4, 4, 2, 2, 2, 1, 1, List.replicate 12 0⟩ : TZ.View)
          ).videoBuffer.length : ℤ) := by
  have h := viewport_clamp_C3.2 ⟨4, 4, 2, 2, 2, 1, 1, List.replicate 12 0⟩
    9 9 (by norm_num) (by norm_num) (by norm_num) (by norm_num)
    (by norm_num) (by norm_num) (by norm_num)
  exact ⟨by norm_num, h.1, h.2.2.2.2 (by simp)⟩
/-- C9: when no sub-sample's luminance is strictly below the mean, the
mask is 0, the glyph is the space character and the foreground is black:
the empty dark partition yields black, not a contrasting colour. -/
theorem quadrant_all_light_C9 (p0 p1 p2 p3 : QD.RGB)
    (h0 : ¬ QD.luminance p0 < QD.avgLum p0 p1 p2 p3)
    (h1 : ¬ QD.luminance p1 < QD.avgLum p0 p1 p2 p3)
    (h2 : ¬ QD.luminance p2 < QD.avgLum p0 p1 p2 p3)
    (h3 : ¬ QD.luminance p3 < QD.avgLum p0 p1 p2 p3) :
    QD.quadrantBits p0 p1 p2 p3 = 0 ∧
    (QD.renderQuadrant p0 p1 p2 p3).1 = ' ' ∧
    (QD.renderQuadrant p0 p1 p2 p3).2.1 = (0, 0, 0) := by
  unfold QD.renderQuadrant QD.quadrantBits
  simp [h0, h1, h2, h3, QD.quadrantChars, QD.addPix]

/-- `renderQuadrant` against the specification's words: mask, glyph,
partition averages and the white fallback. -/
lemma renderQuadrant_avg_spec (p0 p1 p2 p3 : QD.RGB) :
    QD.quadrantBits p0 p1 p2 p3 = specMask p0 p1 p2 p3 ∧
    (QD.renderQuadrant p0 p1 p2 p3).1
      = QD.quadrantChars.getD (specMask p0 p1 p2 p3) ' ' ∧
    (specDarkPartition p0 p1 p2 p3 ≠ [] →
      (QD.renderQuadrant p0 p1 p2 p3).2.1
        = specAvgColor (specDarkPartition p0 p1 p2 p3)) ∧
    (specLightPartition p0 p1 p2 p3 ≠ [] →
      (QD.renderQuadrant p0 p1 p2 p3).2.2
        = specAvgColor (specLightPartition p0 p1 p2 p3)) ∧
    (specLightPartition p0 p1 p2 p3 = [] →
      (QD.renderQuadrant p0 p1 p2 p3).2.2 = (255, 255, 255)) := by
  by_cases h0 : QD.luminance p0 < QD.avgLum p0 p1 p2 p3 <;>
    by_cases h1 : QD.luminance p1 < QD.avgLum p0 p1 p2 p3 <;>
      by_cases h2 : QD.luminance p2 < QD.avgLum p0 p1 p2 p3 <;>
        by_cases h3 : QD.luminance p3 < QD.avgLum p0 p1 p2 p3 <;>
  simp [QD.renderQuadrant, QD.quadrantBits, specMask, specDarkPartition,
    specLightPartition, specAvgColor, QD.addPix, h0, h1, h2, h3] <;>
  exact ⟨by congr 1; ring, by congr 1; ring, by congr 1; ring⟩

/-- Luma is linear, so the luminance of the averaged colour equals the
mean of the four luminances: `renderFallback` and `renderQuadrant` use
the same dark/light threshold. -/
lemma luminance_avgColor (p0 p1 p2 p3 : QD.RGB) :
    QD.luminance
        ⟨(p0.r + p1.r + p2.r + p3.r) / 4, (p0.g + p1.g + p2.g + p3.g) / 4,
         (p0.b + p1.b + p2.b + p3.b) / 4⟩
      = QD.avgLum p0 p1 p2 p3 := by
  simp only [QD.avgLum, QD.luminance]
  ring

/-- `renderFallback` picks a sub-sample of minimal luminance as `fg`. -/
lemma darkColor_spec (p0 p1 p2 p3 : QD.RGB) :
    SS.darkColor p0 p1 p2 p3 ∈ [p0, p1, p2, p3] ∧
    ∀ q ∈ [p0, p1, p2, p3],
      QD.luminance (SS.darkColor p0 p1 p2 p3) ≤ QD.luminance q := by
  have hall : ∀ q ∈ [p0, p1, p2, p3],
      SS.lmin p0 p1 p2 p3 ≤ QD.luminance q := by
    intro q hq
    unfold SS.lmin
    rcases List.mem_cons.mp hq with rfl | hq
    · exact le_trans (min_le_left _ _)
        (le_trans (min_le_left _ _) (min_le_left _ _))
    rcases List.mem_cons.mp hq with rfl | hq
    · exact le_trans (min_le_left _ _)
        (le_trans (min_le_left _ _) (min_le_right _ _))
    rcases List.mem_cons.mp hq with rfl | hq
    · exact le_trans (min_le_left _ _) (min_le_right _ _)
    rcases List.mem_cons.mp hq with rfl | hq
    · exact min_le_right _ _
    · simp at hq
  have hchoice : SS.lmin p0 p1 p2 p3 = QD.luminance p0 ∨
      SS.lmin p0 p1 p2 p3 = QD.luminance p1 ∨
      SS.lmin p0 p1 p2 p3 = QD.luminance p2 ∨
      SS.lmin p0 p1 p2 p3 = QD.luminance p3 := by
    unfold SS.lmin
    rcases min_choice (min (min (QD.luminance p0) (QD.luminance p1))
        (QD.luminance p2)) (QD.luminance p3) with h | h
    · rw [h]
      rcases min_choice (min (QD.luminance p0) (QD.luminance p1))
          (QD.luminance p2) with h2 | h2
      · rw [h2]
        rcases min_choice (QD.luminance p0) (QD.luminance p1) with h3 | h3
        · exact Or.inl h3
        · exact Or.inr (Or.inl h3)
      · exact Or.inr (Or.inr (Or.inl h2))
    · exact Or.inr (Or.inr (Or.inr h))
  unfold SS.darkColor
  split_ifs with h0 h1 h2
  · exact ⟨by simp, by rw [h0]; exact hall⟩
  · exact ⟨by simp, by rw [h1]; exact hall⟩
  · exact ⟨by simp, by rw [h2]; exact hall⟩
  · have h3 : QD.luminance p3 = SS.lmin p0 p1 p2 p3 := by
      rcases hchoice with h | h | h | h
      · exact absurd h.symm h0
      · exact absurd h.symm h1
      · exact absurd h.symm h2
      · exact h.symm
    exact ⟨by simp, by rw [h3]; exact hall⟩

/-- `renderFallback` picks a sub-sample of maximal luminance as `bg`. -/
lemma lightColor_spec (p0 p1 p2 p3 : QD.RGB) :
    SS.lightColor p0 p1 p2 p3 ∈ [p0, p1, p2, p3] ∧
    ∀ q ∈ [p0, p1, p2, p3],
      QD.luminance q ≤ QD.luminance (SS.lightColor p0 p1 p2 p3) := by
  have hall : ∀ q ∈ [p0, p1, p2, p3],
      QD.luminance q ≤ SS.lmax p0 p1 p2 p3 := by
    intro q hq
    unfold SS.lmax
    rcases List.mem_cons.mp hq with rfl | hq
    · exact le_trans (le_trans (le_max_left _ _) (le_max_left _ _))
        (le_max_left _ _)
    rcases List.mem_cons.mp hq with rfl | hq
    · exact le_trans (le_trans (le_max_right _ _) (le_max_left _ _))
        (le_max_left _ _)
    rcases List.mem_cons.mp hq with rfl | hq
    · exact le_trans (le_max_right _ _) (le_max_left _ _)
    rcases List.mem_cons.mp hq with rfl | hq
    · exact le_max_right _ _
    · simp at hq
  have hchoice : SS.lmax p0 p1 p2 p3 = QD.luminance p0 ∨
      SS.lmax p0 p1 p2 p3 = QD.luminance p1 ∨
      SS.lmax p0 p1 p2 p3 = QD.luminance p2 ∨
      SS.lmax p0 p1 p2 p3 = QD.luminance p3 := by
    unfold SS.lmax
    rcases max_choice (max (max (QD.luminance p0) (QD.luminance p1))
        (QD.luminance p2)) (QD.luminance p3) with h | h
    · rw [h]
      rcases max_choice (max (QD.luminance p0) (QD.luminance p1))
          (QD.luminance p2) with h2 | h2
      · rw [h2]
        rcases max_choice (QD.luminance p0) (QD.luminance p1) with h3 | h3
        · exact Or.inl h3
        · exact Or.inr (Or.inl h3)
      · exact Or.inr (Or.inr (Or.inl h2))
    · exact Or.inr (Or.inr (Or.inr h))
  unfold SS.lightColor
  split_ifs with h0 h1 h2
  · exact ⟨by simp, by rw [h0]; exact hall⟩
  · exact ⟨by simp, by rw [h1]; exact hall⟩
  · exact ⟨by simp, by rw [h2]; exact hall⟩
  · have h3 : QD.luminance p3 = SS.lmax p0 p1 p2 p3 := by
      rcases hchoice with h | h | h | h
      · exact absurd h.symm h0
      · exact absurd h.symm h1
      · exact absurd h.symm h2
      · exact h.symm
    exact ⟨by simp, by rw [h3]; exact hall⟩

/-- `renderFallback` computes the same mask and glyph as
`renderQuadrant`. -/
lemma renderFallbackCell_char (p0 p1 p2 p3 : QD.RGB) :
    (SS.renderFallbackCell p0 p1 p2 p3).1
      = QD.quadrantChars.getD (QD.quadrantBits p0 p1 p2 p3) ' ' := by
  simp only [SS.renderFallbackCell, QD.quadrantBits, luminance_avgColor]

/-- C4 amended: the primary quadrant encoder `renderQuadrant` computes
each sub-sample's luminance, partitions against the mean of the four,
averages the colours within each partition (white when the light
partition is empty) and selects one of 16 glyphs by the 4-bit mask with
MSB = top-left; the alternate `renderFallback` encoder selects its glyph
by the same mask but takes `fg` from a darkest and `bg` from a lightest
sub-sample instead of partition averages. -/
theorem quadrant_encoder_C4 (p0 p1 p2 p3 : QD.RGB) :
    QD.quadrantBits p0 p1 p2 p3 = specMask p0 p1 p2 p3 ∧
    (QD.renderQuadrant p0 p1 p2 p3).1
      = QD.quadrantChars.getD (specMask p0 p1 p2 p3) ' ' ∧
    (specDarkPartition p0 p1 p2 p3 ≠ [] →
      (QD.renderQuadrant p0 p1 p2 p3).2.1
        = specAvgColor (specDarkPartition p0 p1 p2 p3)) ∧
    (specLightPartition p0 p1 p2 p3 ≠ [] →
      (QD.renderQuadrant p0 p1 p2 p3).2.2
        = specAvgColor (specLightPartition p0 p1 p2 p3)) ∧
    (specLightPartition p0 p1 p2 p3 = [] →
      (QD.renderQuadrant p0 p1 p2 p3).2.2 = (255, 255, 255)) ∧
    (SS.renderFallbackCell p0 p1 p2 p3).1
      = QD.quadrantChars.getD (specMask p0 p1 p2 p3) ' ' ∧
    (SS.renderFallbackCell p0 p1 p2 p3).2.1 ∈ [p0, p1, p2, p3] ∧
    (∀ q ∈ [p0, p1, p2, p3],
      QD.luminance (SS.renderFallbackCell p0 p1 p2 p3).2.1
        ≤ QD.luminance q) ∧
    (SS.renderFallbackCell p0 p1 p2 p3).2.2 ∈ [p0, p1, p2, p3] ∧
    (∀ q ∈ [p0, p1, p2, p3],
      QD.luminance q
        ≤ QD.luminance (SS.renderFallbackCell p0 p1 p2 p3).2.2) := by
  obtain ⟨hA, hB, hC, hD, hE⟩ := renderQuadrant_avg_spec p0 p1 p2 p3
  have hchar : (SS.renderFallbackCell p0 p1 p2 p3).1
      = QD.quadrantChars.getD (specMask p0 p1 p2 p3) ' ' := by
    rw [renderFallbackCell_char, hA]
  have hfg : (SS.renderFallbackCell p0 p1 p2 p3).2.1
      = SS.darkColor p0 p1 p2 p3 := rfl
  have hbg : (SS.renderFallbackCell p0 p1 p2 p3).2.2
      = SS.lightColor p0 p1 p2 p3 := rfl
  obtain ⟨hd1, hd2⟩ := darkColor_spec p0 p1 p2 p3
  obtain ⟨hl1, hl2⟩ := lightColor_spec p0 p1 p2 p3
  rw [hfg, hbg]
  exact ⟨hA, hB, hC, hD, hE, hchar, hd1, hd2, hl1, hl2⟩

/-- C4 as frozen is false for its second cited implementation: for
TL = (0,0,0), TR = (255,0,0), BL = BR = (255,255,255), the dark
partition is {TL, TR} and its claimed averaged colour rounds to
(128, 0, 0), but `renderFallback` sets `fg` to the single darkest
sub-sample's colour (0, 0, 0), not the partition average. -/
theorem quadrant_encoder_C4_counterexample :
    specDarkPartition ⟨0, 0, 0⟩ ⟨255, 0, 0⟩ ⟨255, 255, 255⟩
        ⟨255, 255, 255⟩ = [⟨0, 0, 0⟩, ⟨255, 0, 0⟩] ∧
    specAvgColor (specDarkPartition ⟨0, 0, 0⟩ ⟨255, 0, 0⟩
        ⟨255, 255, 255⟩ ⟨255, 255, 255⟩) = (128, 0, 0) ∧
    (SS.renderFallbackCell ⟨0, 0, 0⟩ ⟨255, 0, 0⟩ ⟨255, 255, 255⟩
        ⟨255, 255, 255⟩).2.1 = ⟨0, 0, 0⟩ ∧
    (⟨0, 0, 0⟩ : QD.RGB) ≠ ⟨128, 0, 0⟩ := by
  have hdp : specDarkPartition ⟨0, 0, 0⟩ ⟨255, 0, 0⟩ ⟨255, 255, 255⟩
      ⟨255, 255, 255⟩ = [⟨0, 0, 0⟩, ⟨255, 0, 0⟩] := by
    norm_num [specDarkPartition, QD.luminance, QD.avgLum]
  refine ⟨hdp, ?_, ?_, ?_⟩
  · rw [hdp]
    norm_num [specAvgColor, QD.jsRound]
  · have hsel : (SS.renderFallbackCell ⟨0, 0, 0⟩ ⟨255, 0, 0⟩
        ⟨255, 255, 255⟩ ⟨255, 255, 255⟩).2.1
        = SS.darkColor ⟨0, 0, 0⟩ ⟨255, 0, 0⟩ ⟨255, 255, 255⟩
            ⟨255, 255, 255⟩ := rfl
    rw [hsel]
    norm_num [SS.darkColor, SS.lmin, QD.luminance]
  · intro h
    have := congrArg QD.RGB.r h
    norm_num at this

theorem quadrant_all_light_C9_witness :
    (¬ QD.luminance ⟨10, 20, 30⟩
        < QD.avgLum ⟨10, 20, 30⟩ ⟨10, 20, 30⟩ ⟨10, 20, 30⟩ ⟨10, 20, 30⟩) ∧
    QD.quadrantBits ⟨10, 20, 30⟩ ⟨10, 20, 30⟩ ⟨10, 20, 30⟩ ⟨10, 20, 30⟩
      = 0 ∧
    (QD.renderQuadrant ⟨10, 20, 30⟩ ⟨10, 20, 30⟩ ⟨10, 20, 30⟩
        ⟨10, 20, 30⟩).1 = ' ' ∧
    (QD.renderQuadrant ⟨10, 20, 30⟩ ⟨10, 20, 30⟩ ⟨10, 20, 30⟩
        ⟨10, 20, 30⟩).2.1 = (0, 0, 0) := by
  have h : ¬ QD.luminance ⟨10, 20, 30⟩
      < QD.avgLum ⟨10, 20, 30⟩ ⟨10, 20, 30⟩ ⟨10, 20, 30⟩ ⟨10, 20, 30⟩ := by
    norm_num [QD.luminance, QD.avgLum]
  have hc := quadrant_all_light_C9 _ _ _ _ h h h h
  exact ⟨h, hc.1, hc.2.1, hc.2.2⟩

/-- Witness for the amended C4 at one dark and three white
sub-samples. -/
theorem quadrant_encoder_C4_witness :
    specDarkPartition ⟨0, 0, 0⟩ ⟨255, 255, 255⟩ ⟨255, 255, 255⟩
        ⟨255, 255, 255⟩ ≠ [] ∧
    specLightPartition ⟨0, 0, 0⟩ ⟨255, 255, 255⟩ ⟨255, 255, 255⟩
        ⟨255, 255, 255⟩ ≠ [] ∧
    (QD.renderQuadrant ⟨0, 0, 0⟩ ⟨255, 255, 255⟩ ⟨255, 255, 255⟩
        ⟨255, 255, 255⟩).2.1
      = specAvgColor (specDarkPartition ⟨0, 0, 0⟩ ⟨255, 255, 255⟩
          ⟨255, 255, 255⟩ ⟨255, 255, 255⟩) ∧
    (QD.renderQuadrant ⟨0, 0, 0⟩ ⟨255, 255, 255⟩ ⟨255, 255, 255⟩
        ⟨255, 255, 255⟩).2.2
      = specAvgColor (specLightPartition ⟨0, 0, 0⟩ ⟨255, 255, 255⟩
          ⟨255, 255, 255⟩ ⟨255, 255, 255⟩) ∧
    QD.luminance (SS.renderFallbackCell ⟨0, 0, 0⟩ ⟨255, 255, 255⟩
        ⟨255, 255, 255⟩ ⟨255, 255, 255⟩).2.1
      ≤ QD.luminance ⟨0, 0, 0⟩ := by
  have hd : specDarkPartition ⟨0, 0, 0⟩ ⟨255, 255, 255⟩ ⟨255, 255, 255⟩
      ⟨255, 255, 255⟩ ≠ [] := by
    norm_num [specDarkPartition, QD.luminance, QD.avgLum]
  have hl : specLightPartition ⟨0, 0, 0⟩ ⟨255, 255, 255⟩ ⟨255, 255, 255⟩
      ⟨255, 255, 255⟩ ≠ [] := by
    norm_num [specLightPartition, QD.luminance, QD.avgLum]
    simp
  have h := quadrant_encoder_C4 ⟨0, 0, 0⟩ ⟨255, 255, 255⟩ ⟨255, 255, 255⟩
    ⟨255, 255, 255⟩
  exact ⟨hd, hl, h.2.2.1 hd, h.2.2.2.1 hl,
    h.2.2.2.2.2.2.2.1 ⟨0, 0, 0⟩ (by simp)⟩
/-- The clamped normalized brightness always lies in `[0, 1]`. -/
lemma normBrightness_bounds (brightness : ℚ) :
    0 ≤ DR.normBrightness brightness ∧ DR.normBrightness brightness ≤ 1 := by
  unfold DR.normBrightness
  exact ⟨le_min (by norm_num) (le_max_left _ _), min_le_left _ _⟩

/-- The ramp index is always within `[0, ramp.length - 1]`. -/
lemma rampIndex_bounds (ramp : List Char) (hlen : 1 ≤ ramp.length)
    (brightness : ℚ) :
    0 ≤ DR.rampIndex ramp brightness ∧
    DR.rampIndex ramp brightness ≤ (ramp.length : ℤ) - 1 := by
  obtain ⟨h0, h1⟩ := normBrightness_bounds brightness
  have hlenQ : (1 : ℚ) ≤ (ramp.length : ℚ) := by exact_mod_cast hlen
  unfold DR.rampIndex
  constructor
  · exact Int.floor_nonneg.mpr (mul_nonneg h0 (by linarith))
  · have hle : DR.normBrightness brightness * ((ramp.length : ℚ) - 1)
        ≤ (ramp.length : ℚ) - 1 :=
      mul_le_of_le_one_left (by linarith) h1
    calc ⌊DR.normBrightness brightness * ((ramp.length : ℚ) - 1)⌋
        ≤ ⌊(ramp.length : ℚ) - 1⌋ := Int.floor_le_floor hle
      _ = (ramp.length : ℤ) - 1 := by
          rw [show ((ramp.length : ℚ) - 1) = (((ramp.length : ℤ) - 1 : ℤ) : ℚ) by push_cast; ring,
            Int.floor_intCast]

/-- `Math.round(Math.max(0, Math.min(255, n)))` is the identity on byte
values. -/
lemma cellColorComp_natCast (n : ℕ) (h : n ≤ 255) :
    DR.cellColorComp (n : ℚ) = (n : ℤ) := by
  unfold DR.cellColorComp QD.jsRound
  have h255 : (n : ℚ) ≤ 255 := by exact_mod_cast h
  rw [min_eq_right h255, max_eq_right (by positivity)]
  rw [Int.floor_eq_iff]
  push_cast
  constructor <;> linarith

/-- C6: ramp index bounds, glyph lookup, fg = sample colour, bg black. -/
theorem ramp_encoding_C6 (mode : DR.DisplayMode) (ramp : List Char)
    (hmode : DR.rampOf mode = some ramp) :
    (∀ brightness : ℚ, 0 ≤ brightness → brightness ≤ 255 →
      0 ≤ DR.rampIndex ramp brightness ∧
      DR.rampIndex ramp brightness ≤ (ramp.length : ℤ) - 1 ∧
      DR.getCharForBrightness mode brightness
        = ramp.get? (DR.rampIndex ramp brightness).toNat ∧
      (ramp.get? (DR.rampIndex ramp brightness).toNat).isSome = true) ∧
    (∀ r g b : ℕ, r ≤ 255 → g ≤ 255 → b ≤ 255 →
      0 ≤ DR.luma (r : ℚ) (g : ℚ) (b : ℚ) ∧
      DR.luma (r : ℚ) (g : ℚ) (b : ℚ) ≤ 255 ∧
      DR.encodeFgBg mode (r : ℚ) (g : ℚ) (b : ℚ)
        = (((r : ℤ), (g : ℤ), (b : ℤ)), (0, 0, 0))) := by
  have hlen : 1 ≤ ramp.length := by
    cases mode <;> simp [DR.rampOf] at hmode <;> subst hmode <;>
      simp [DR.blockChars, DR.shadeChars, DR.asciiChars, DR.brailleChars,
        DR.dotChars]
  constructor
  · intro brightness _ _
    obtain ⟨hi0, hi1⟩ := rampIndex_bounds ramp hlen brightness
    have hidx : (DR.rampIndex ramp brightness).toNat < ramp.length := by
      omega
    refine ⟨hi0, hi1, ?_, ?_⟩
    · cases mode <;> simp [DR.rampOf] at hmode <;> subst hmode <;>
        rfl
    · rw [List.get?_eq_get hidx]
      rfl
  · intro r g b hr hg hb
    have hrQ : (r : ℚ) ≤ 255 := by exact_mod_cast hr
    have hgQ : (g : ℚ) ≤ 255 := by exact_mod_cast hg
    have hbQ : (b : ℚ) ≤ 255 := by exact_mod_cast hb
    refine ⟨by unfold DR.luma; positivity, ?_, ?_⟩
    · unfold DR.luma
      linarith
    · have hnp : mode ≠ DR.DisplayMode.pixels := by
        intro h
        rw [h] at hmode
        simp [DR.rampOf] at hmode
      unfold DR.encodeFgBg
      rw [cellColorComp_natCast r hr, cellColorComp_natCast g hg,
        cellColorComp_natCast b hb, if_neg hnp]
      cases mode <;> simp_all

theorem ramp_encoding_C6_witness :
    DR.rampOf DR.DisplayMode.blocks = some DR.blockChars ∧
    DR.getCharForBrightness DR.DisplayMode.blocks 0
      = DR.blockChars.get? (DR.rampIndex DR.blockChars 0).toNat ∧
    0 ≤ DR.rampIndex DR.blockChars 255 ∧
    DR.rampIndex DR.blockChars 255 ≤ (DR.blockChars.length : ℤ) - 1 ∧
    (DR.blockChars.get? (DR.rampIndex DR.blockChars 255).toNat).isSome
      = true ∧
    DR.encodeFgBg DR.DisplayMode.blocks 7 8 9 = ((7, 8, 9), (0, 0, 0)) := by
  have h := ramp_encoding_C6 DR.DisplayMode.blocks DR.blockChars rfl
  have h0 := h.1 0 (by norm_num) (by norm_num)
  have h255 := h.1 255 (by norm_num) (by norm_num)
  have h2 := h.2 7 8 9 (by norm_num) (by norm_num) (by norm_num)
  refine ⟨rfl, h0.2.2.1, h255.1, h255.2.1, h255.2.2.2, ?_⟩
  have := h2.2.2
  exact_mod_cast this
/-- Changing only the foreground colour changes the state hash: the two
colour strings differ, and the surrounding fields are identical, so the
concatenated hash strings differ. -/
lemma stateHash_ne_of_fg_ne (r : OC.TextRenderable) (c c' : String)
    (hfg : r.fg = some c) (hne : c' ≠ c) :
    OC.stateHash { r with fg := some c' } ≠ OC.stateHash r := by
  intro h
  apply hne
  simp only [OC.stateHash, OC.showField, hfg] at h
  have hd := congrArg String.data h
  simp only [String.data_append, List.append_assoc] at hd
  have h1 := List.append_cancel_left hd
  have h2 := List.append_cancel_left h1
  have h3 := List.append_cancel_right h2
  cases c'
  cases c
  exact congrArg String.mk (by simpa using h3)

/-- The write operations of one render pass are exactly the changed
renderables, in order. -/
lemma renderPass_ops (rs : List OC.TextRenderable) :
    ∀ m : String → Option String,
      (rs.map OC.TextRenderable.id).Nodup →
      (OC.renderPass m rs).2
        = (rs.filter
              (fun x => !decide (m x.id = some (OC.stateHash x)))).map
            OC.writeOpFor := by
  induction rs with
  | nil => intro m _; simp [OC.renderPass]
  | cons r rs ih =>
    intro m hnd
    have hnd' : (rs.map OC.TextRenderable.id).Nodup :=
      (List.nodup_cons.mp hnd).2
    have hnotmem : r.id ∉ rs.map OC.TextRenderable.id :=
      (List.nodup_cons.mp hnd).1
    by_cases h : m r.id = some (OC.stateHash r)
    · simp only [OC.renderPass, if_pos h]
      rw [ih m hnd']
      simp [List.filter_cons, h]
    · simp only [OC.renderPass, if_neg h]
      rw [ih _ hnd']
      have hfilter : rs.filter
            (fun x => !decide ((if x.id = r.id
                then some (OC.stateHash r) else m x.id)
              = some (OC.stateHash x)))
          = rs.filter
            (fun x => !decide (m x.id = some (OC.stateHash x))) := by
        apply List.filter_congr
        intro x hx
        have hxid : x.id ≠ r.id := by
          intro he
          exact hnotmem (he ▸ List.mem_map_of_mem OC.TextRenderable.id hx)
        simp [hxid]
      rw [hfilter]
      simp [List.filter_cons, h]

/-- After one render pass the state map records every rendered
renderable's hash and keeps every other entry unchanged. -/
lemma renderPass_map (rs : List OC.TextRenderable) :
    ∀ m : String → Option String,
      (rs.map OC.TextRenderable.id).Nodup →
      (∀ r ∈ rs,
        (OC.renderPass m rs).1 r.id = some (OC.stateHash r)) ∧
      (∀ i, i ∉ rs.map OC.TextRenderable.id →
        (OC.renderPass m rs).1 i = m i) := by
  induction rs with
  | nil => intro m _; simp [OC.renderPass]
  | cons r rs ih =>
    intro m hnd
    have hnd' : (rs.map OC.TextRenderable.id).Nodup :=
      (List.nodup_cons.mp hnd).2
    have hnotmem : r.id ∉ rs.map OC.TextRenderable.id :=
      (List.nodup_cons.mp hnd).1
    by_cases h : m r.id = some (OC.stateHash r)
    · simp only [OC.renderPass, if_pos h]
      obtain ⟨iha, ihb⟩ := ih m hnd'
      refine ⟨?_, ?_⟩
      · intro x hx
        rcases List.mem_cons.mp hx with rfl | hx'
        · rw [ihb x.id hnotmem]
          exact h
        · exact iha x hx'
      · intro i hi
        have : i ∉ rs.map OC.TextRenderable.id := by
          intro hmem
          exact hi (List.mem_cons_of_mem _ hmem)
        exact ihb i this
    · simp only [OC.renderPass, if_neg h]
      obtain ⟨iha, ihb⟩ :=
        ih (fun id => if id = r.id then some (OC.stateHash r) else m id)
          hnd'
      refine ⟨?_, ?_⟩
      · intro x hx
        rcases List.mem_cons.mp hx with rfl | hx'
        · rw [ihb x.id hnotmem]
          simp
        · exact iha x hx'
      · intro i hi
        have hi' : i ∉ rs.map OC.TextRenderable.id := by
          intro hmem
          exact hi (List.mem_cons_of_mem _ hmem)
        have hir : i ≠ r.id := by
          intro he
          exact hi (by simp [he])
        rw [ihb i hi']
        simp [hir]

/-- C5: rendering the same grid twice emits no write on the second pass;
changing exactly one cell's colour emits exactly one write for that cell,
whose line-clear happens only for `zIndex ≥ 1000` overlays with a
background. -/
theorem diff_render_C5 :
    (∀ (m : String → Option String) (rs : List OC.TextRenderable),
        (rs.map OC.TextRenderable.id).Nodup →
        (OC.renderLoop (OC.renderLoop m rs).1 rs).2 = []) ∧
    (∀ (m : String → Option String) (pre post : List OC.TextRenderable)
        (r : OC.TextRenderable) (c c' : String),
        c' ≠ c → r.fg = some c →
        ((pre ++ r :: post).map OC.TextRenderable.id).Nodup →
        (OC.renderLoop (OC.renderLoop m (pre ++ r :: post)).1
            (pre ++ { r with fg := some c' } :: post)).2
          = [OC.writeOpFor { r with fg := some c' }] ∧
        (OC.writeOpFor { r with fg := some c' }).lineClear
          = (decide (1000 ≤ r.zIndex) && r.bg.isSome)) := by
  constructor
  · intro m rs hnd
    unfold OC.renderLoop
    have hperm :=
      List.mergeSort_perm rs (fun a b => decide (a.zIndex ≤ b.zIndex))
    have hndS : ((rs.mergeSort
        (fun a b => decide (a.zIndex ≤ b.zIndex))).map
          OC.TextRenderable.id).Nodup :=
      ((hperm.map _).nodup_iff).mpr hnd
    have hm1 := (renderPass_map _ m hndS).1
    rw [renderPass_ops _ _ hndS]
    have hnil : (rs.mergeSort
          (fun a b => decide (a.zIndex ≤ b.zIndex))).filter
          (fun x => !decide ((OC.renderPass m (rs.mergeSort
              (fun a b => decide (a.zIndex ≤ b.zIndex)))).1 x.id
            = some (OC.stateHash x))) = [] := by
      rw [List.filter_eq_nil_iff]
      intro a ha
      simp [hm1 a ha]
    rw [hnil]
    rfl
  · intro m pre post r c c' hne hfg hnd
    refine ⟨?_, rfl⟩
    unfold OC.renderLoop
    have hperm := List.mergeSort_perm (pre ++ r :: post)
      (fun a b => decide (a.zIndex ≤ b.zIndex))
    have hperm' := List.mergeSort_perm
      (pre ++ { r with fg := some c' } :: post)
      (fun a b => decide (a.zIndex ≤ b.zIndex))
    have hndS : (((pre ++ r :: post).mergeSort
        (fun a b => decide (a.zIndex ≤ b.zIndex))).map
          OC.TextRenderable.id).Nodup :=
      ((hperm.map _).nodup_iff).mpr hnd
    have hids : (pre ++ { r with fg := some c' } :: post).map
          OC.TextRenderable.id
        = (pre ++ r :: post).map OC.TextRenderable.id := by
      simp
    have hnd2 : ((pre ++ { r with fg := some c' } :: post).map
        OC.TextRenderable.id).Nodup := by
      rw [hids]; exact hnd
    have hndS' : (((pre ++ { r with fg := some c' } :: post).mergeSort
        (fun a b => decide (a.zIndex ≤ b.zIndex))).map
          OC.TextRenderable.id).Nodup :=
      ((hperm'.map _).nodup_iff).mpr hnd2
    have hm1 : ∀ x ∈ pre ++ r :: post,
        (OC.renderPass m ((pre ++ r :: post).mergeSort
            (fun a b => decide (a.zIndex ≤ b.zIndex)))).1 x.id
          = some (OC.stateHash x) := by
      intro x hx
      exact (renderPass_map _ m hndS).1 x (hperm.mem_iff.mpr hx)
    rw [renderPass_ops _ _ hndS']
    have hfperm := hperm'.filter
      (fun x => !decide ((OC.renderPass m ((pre ++ r :: post).mergeSort
          (fun a b => decide (a.zIndex ≤ b.zIndex)))).1 x.id
        = some (OC.stateHash x)))
    have hfilter : (pre ++ { r with fg := some c' } :: post).filter
        (fun x => !decide ((OC.renderPass m ((pre ++ r :: post).mergeSort
            (fun a b => decide (a.zIndex ≤ b.zIndex)))).1 x.id
          = some (OC.stateHash x)))
        = [{ r with fg := some c' }] := by
      rw [List.filter_append, List.filter_cons]
      have hpre : pre.filter
          (fun x => !decide ((OC.renderPass m ((pre ++ r :: post).mergeSort
              (fun a b => decide (a.zIndex ≤ b.zIndex)))).1 x.id
            = some (OC.stateHash x))) = [] := by
        rw [List.filter_eq_nil_iff]
        intro a ha
        simp [hm1 a (by simp [ha])]
      have hpost : post.filter
          (fun x => !decide ((OC.renderPass m ((pre ++ r :: post).mergeSort
              (fun a b => decide (a.zIndex ≤ b.zIndex)))).1 x.id
            = some (OC.stateHash x))) = [] := by
        rw [List.filter_eq_nil_iff]
        intro a ha
        simp [hm1 a (by simp [ha])]
      have hhash : OC.stateHash { r with fg := some c' }
          ≠ OC.stateHash r := stateHash_ne_of_fg_ne r c c' hfg hne
      have hPr : (!decide ((OC.renderPass m ((pre ++ r :: post).mergeSort
            (fun a b => decide (a.zIndex ≤ b.zIndex)))).1
              ({ r with fg := some c' } : OC.TextRenderable).id
          = some (OC.stateHash { r with fg := some c' }))) = true := by
        have h1 : (OC.renderPass m ((pre ++ r :: post).mergeSort
            (fun a b => decide (a.zIndex ≤ b.zIndex)))).1
              ({ r with fg := some c' } : OC.TextRenderable).id
            = some (OC.stateHash r) := hm1 r (by simp)
        rw [h1]
        simpa using fun hcon => hhash hcon.symm
      rw [hpre, hpost, if_pos hPr]
      rfl
    rw [hfilter] at hfperm
    rw [List.perm_singleton.mp hfperm]
    rfl

theorem diff_render_C5_witness :
    (OC.renderLoop (OC.renderLoop (fun _ => none)
        [⟨"0-1", "a", 0, 1, some "#ff0000", some "#000000", 1⟩]).1
        [⟨"0-1", "a", 0, 1, some "#ff0000", some "#000000", 1⟩]).2
      = ([] : List OC.WriteOp) ∧
    (OC.renderLoop (OC.renderLoop (fun _ => none)
        [⟨"0-1", "a", 0, 1, some "#ff0000", some "#000000", 1⟩,
         ⟨"1-1", "b", 1, 1, some "#00ff00", some "#000000", 1⟩]).1
        [⟨"0-1", "a", 0, 1, some "#0000ff", some "#000000", 1⟩,
         ⟨"1-1", "b", 1, 1, some "#00ff00", some "#000000", 1⟩]).2
      = [OC.writeOpFor
          ⟨"0-1", "a", 0, 1, some "#0000ff", some "#000000", 1⟩] := by
  constructor
  · exact diff_render_C5.1 (fun _ => none)
      [⟨"0-1", "a", 0, 1, some "#ff0000", some "#000000", 1⟩] (by simp)
  · have h := diff_render_C5.2 (fun _ => none) []
      [⟨"1-1", "b", 1, 1, some "#00ff00", some "#000000", 1⟩]
      ⟨"0-1", "a", 0, 1, some "#ff0000", some "#000000", 1⟩
      "#ff0000" "#0000ff" (by decide) rfl (by simp)
    exact h.1
